import Mathlib

/-!
Verification of the Wasmtime Functions runtime against its specification.

The definitions below are a shallow embedding of the Rust sources:

* `crates/metadata/src/lib.rs` — the metadata extractor and its
  length-prefixed record framing (`read_data_len`, `read_section_data`,
  `Metadata::from_module_bytes`);
* `crates/runtime/src/host.rs` — the per-invocation resource table
  (`HostContextInner`) and the host call surface built on it;
* `crates/runtime/src/server.rs` — the invocation dispatcher
  (`Endpoint::invoke_function`, `Endpoint::call`, route registration in
  `Server::new`).

Machine integers are modelled as `Nat` with explicit bounds where overflow
matters (the `u32` handle counter).  Fallible Rust functions returning
`anyhow::Result` or `Result<_, types::Error>` are modelled with `Except`.
External crates are not re-implemented: where a claim depends on the
contract of an external collaborator (the `wasmparser` module walk, the
`serde_json` record decoder, the tide router and transport, the `futures`
select combinator), that collaborator is either taken as a parameter or
modelled from the specification, and each such definition says so in its
doc comment.
-/

/- ===================================================================
   Part 1: metadata extraction (crates/metadata/src/lib.rs)
   =================================================================== -/

/-- Embeds `Method` from crates/metadata/src/lib.rs. -/
inductive Method where
  | get
  | head
  | post
  | put
  | delete
  | connect
  | options
  | trace
  | patch
deriving DecidableEq, Repr

/-- Embeds `Method::as_ref` from crates/metadata/src/lib.rs. -/
def Method.as_ref : Method → String
  | .get => "GET"
  | .head => "HEAD"
  | .post => "POST"
  | .put => "PUT"
  | .delete => "DELETE"
  | .connect => "CONNECT"
  | .options => "OPTIONS"
  | .trace => "TRACE"
  | .patch => "PATCH"

/-- Embeds `FunctionTrigger` from crates/metadata/src/lib.rs. -/
inductive FunctionTrigger where
  | http (path : String) (methods : List Method)
deriving DecidableEq, Repr

/-- Embeds `FunctionInput` from crates/metadata/src/lib.rs (an empty enum). -/
inductive FunctionInput where
deriving Repr

instance : DecidableEq FunctionInput := fun a => nomatch a

/-- Embeds `FunctionOutput` from crates/metadata/src/lib.rs. -/
inductive FunctionOutput where
  | http
deriving DecidableEq, Repr

/-- Embeds `Function` from crates/metadata/src/lib.rs. -/
structure Function where
  name : String
  trigger : FunctionTrigger
  inputs : List FunctionInput
  outputs : List FunctionOutput
deriving DecidableEq, Repr

/-- Embeds `Metadata` from crates/metadata/src/lib.rs. -/
structure Metadata where
  functions : List Function
  vars : List String
deriving DecidableEq, Repr

deriving instance DecidableEq for Except

/-- Embeds `Metadata::read_data_len`: reads a little-endian `u32` length
from the first four bytes, returning `none` when fewer than four bytes
remain. -/
def read_data_len : List Nat → Option Nat
  | b0 :: b1 :: b2 :: b3 :: _ =>
      some (b0 + b1 * 256 + b2 * 65536 + b3 * 16777216)
  | _ => none

/-- The framing error message produced by `Metadata::read_section_data`. -/
def framingErrorMsg : String := "not enough data in the section"

/-- Recursion worker for `read_section_data`, structurally recursive on a
fuel argument so that it evaluates by kernel reduction.  The fuel is
instantiated with the byte count of the section; since every step of the
source loop consumes at least four bytes, the fuel never runs out when the
function is entered through `read_section_data` (see
`readSectionGo_fuel_irrel`). -/
def readSectionGo {α : Type} (dec : List Nat → Except String (List α)) :
    Nat → List Nat → Except String (List α)
  | _, [] => .ok []
  | 0, _ :: _ => .error framingErrorMsg
  | fuel + 1, b :: bs =>
    match read_data_len (b :: bs) with
    | none => .error framingErrorMsg
    | some len =>
      if 4 + len ≤ (b :: bs).length then
        match dec (((b :: bs).drop 4).take len) with
        | .error e => .error e
        | .ok items =>
          match readSectionGo dec fuel ((b :: bs).drop (4 + len)) with
          | .error e => .error e
          | .ok rest => .ok (items ++ rest)
      else .error framingErrorMsg

/-- Embeds `Metadata::read_section_data`: splits a custom section into
length-prefixed records and decodes each record payload.  The per-record
JSON decoding done by `serde_json::from_slice` in the source is external
code and is taken as the parameter `dec`. -/
def read_section_data {α : Type} (dec : List Nat → Except String (List α))
    (data : List Nat) : Except String (List α) :=
  readSectionGo dec data.length data

theorem read_data_len_none {data : List Nat} (h : data.length < 4) :
    read_data_len data = none := by
  match data with
  | [] => rfl
  | [_] => rfl
  | [_, _] => rfl
  | [_, _, _] => rfl
  | _ :: _ :: _ :: _ :: _ => simp at h; omega

theorem read_data_len_some_length {data : List Nat} {len : Nat}
    (h : read_data_len data = some len) : 4 ≤ data.length := by
  match data with
  | [] => simp [read_data_len] at h
  | [_] => simp [read_data_len] at h
  | [_, _] => simp [read_data_len] at h
  | [_, _, _] => simp [read_data_len] at h
  | _ :: _ :: _ :: _ :: _ => simp

/-- Fuel irrelevance: any fuel at least the byte count gives the same
result, so `read_section_data` behaves as the unbounded source loop. -/
theorem readSectionGo_fuel_irrel {α : Type}
    (dec : List Nat → Except String (List α)) :
    ∀ (n f1 f2 : Nat) (data : List Nat), data.length ≤ n →
      data.length ≤ f1 → data.length ≤ f2 →
      readSectionGo dec f1 data = readSectionGo dec f2 data := by
  intro n
  induction n with
  | zero =>
    intro f1 f2 data hn _ _
    have : data = [] := List.eq_nil_of_length_eq_zero (Nat.le_zero.mp hn)
    subst this
    cases f1 <;> cases f2 <;> rfl
  | succ n ih =>
    intro f1 f2 data hn h1 h2
    match data with
    | [] => cases f1 <;> cases f2 <;> rfl
    | b :: bs =>
      match f1, f2 with
      | f1 + 1, f2 + 1 =>
        show readSectionGo dec (f1 + 1) (b :: bs)
            = readSectionGo dec (f2 + 1) (b :: bs)
        rw [readSectionGo, readSectionGo]
        cases hl : read_data_len (b :: bs) with
        | none => rfl
        | some len =>
          by_cases hle : 4 + len ≤ (b :: bs).length
          · simp only [hle, if_true]
            cases dec (((b :: bs).drop 4).take len) with
            | error e => rfl
            | ok items =>
              have hlen4 : 4 ≤ (b :: bs).length := read_data_len_some_length hl
              have hdrop : ((b :: bs).drop (4 + len)).length ≤ n := by
                rw [List.length_drop]
                simp only [List.length_cons] at hn hle ⊢
                omega
              have hd1 : ((b :: bs).drop (4 + len)).length ≤ f1 := by
                rw [List.length_drop]
                simp only [List.length_cons] at h1 hle ⊢
                omega
              have hd2 : ((b :: bs).drop (4 + len)).length ≤ f2 := by
                rw [List.length_drop]
                simp only [List.length_cons] at h2 hle ⊢
                omega
              rw [ih f1 f2 _ hdrop hd1 hd2]
          · simp only [hle, if_false]

/-- A truncated length field (fewer than four bytes remain, but the
section is not exhausted) is a fatal framing error. -/
theorem read_section_data_truncated_len {α : Type}
    (dec : List Nat → Except String (List α)) {data : List Nat}
    (hne : data ≠ []) (hlt : data.length < 4) :
    read_section_data dec data = .error framingErrorMsg := by
  match data with
  | [] => exact absurd rfl hne
  | b :: bs =>
    rw [read_section_data]
    show readSectionGo dec (bs.length + 1) (b :: bs) = .error framingErrorMsg
    rw [readSectionGo, read_data_len_none hlt]

/-- A record whose declared length exceeds the remaining bytes of the
section is a fatal framing error. -/
theorem read_section_data_overlong {α : Type}
    (dec : List Nat → Except String (List α)) {data : List Nat} {len : Nat}
    (hl : read_data_len data = some len) (hlt : data.length < 4 + len) :
    read_section_data dec data = .error framingErrorMsg := by
  match data with
  | [] => simp [read_data_len] at hl
  | b :: bs =>
    rw [read_section_data]
    show readSectionGo dec (bs.length + 1) (b :: bs) = .error framingErrorMsg
    rw [readSectionGo, hl]
    simp only [Nat.not_le.mpr hlt, if_false]

/-- One step of the record loop: a well-framed record whose payload decodes
successfully is consumed, and parsing continues on the rest of the
section. -/
theorem read_section_data_step {α : Type}
    (dec : List Nat → Except String (List α)) {data : List Nat} {len : Nat}
    {items : List α}
    (hl : read_data_len data = some len) (hle : 4 + len ≤ data.length)
    (hdec : dec ((data.drop 4).take len) = .ok items) :
    read_section_data dec data =
      match read_section_data dec (data.drop (4 + len)) with
      | .error e => .error e
      | .ok rest => .ok (items ++ rest) := by
  match data with
  | [] => simp [read_data_len] at hl
  | b :: bs =>
    rw [read_section_data]
    show readSectionGo dec (bs.length + 1) (b :: bs) = _
    rw [readSectionGo, hl]
    simp only [hle, if_true, hdec]
    have hgo : readSectionGo dec bs.length ((b :: bs).drop (4 + len))
        = read_section_data dec ((b :: bs).drop (4 + len)) := by
      rw [read_section_data]
      apply readSectionGo_fuel_irrel dec ((b :: bs).drop (4 + len)).length
      · exact le_refl _
      · rw [List.length_drop]
        simp only [List.length_cons] at hle ⊢
        omega
      · exact le_refl _
    rw [hgo]

/-- The malformed-framing condition of the specification, relative to the
record decoder `dec`: walking the records of the section strictly in
order, parsing reaches a point where either fewer than four bytes remain
for a length field, or the declared record length exceeds the remaining
bytes. -/
inductive BadFrame {α : Type} (dec : List Nat → Except String (List α)) :
    List Nat → Prop where
  | lenTruncated {data : List Nat} :
      data ≠ [] → data.length < 4 → BadFrame dec data
  | overlong {data : List Nat} {len : Nat} :
      read_data_len data = some len → data.length < 4 + len →
      BadFrame dec data
  | later {data : List Nat} {len : Nat} {items : List α} :
      read_data_len data = some len → 4 + len ≤ data.length →
      dec ((data.drop 4).take len) = .ok items →
      BadFrame dec (data.drop (4 + len)) → BadFrame dec data

/-- Malformed framing anywhere in the section is fatal: the parse fails
with the framing error and yields nothing. -/
theorem read_section_data_badframe {α : Type}
    {dec : List Nat → Except String (List α)} {data : List Nat}
    (h : BadFrame dec data) :
    read_section_data dec data = .error framingErrorMsg := by
  induction h with
  | lenTruncated hne hlt => exact read_section_data_truncated_len _ hne hlt
  | overlong hl hlt => exact read_section_data_overlong _ hl hlt
  | later hl hle hdec _ ih =>
    rw [read_section_data_step dec hl hle hdec, ih]

/-- The wrapper message for a bad functions section
(`Metadata::from_module_bytes`). -/
def functionsSectionError (e : String) : String :=
  "WebAssembly module has an invalid \x27__functions\x27 section: " ++ e

/-- The wrapper message for a bad vars section
(`Metadata::from_module_bytes`). -/
def varsSectionError (e : String) : String :=
  "WebAssembly module has an invalid \x27__vars\x27 section: " ++ e

/-- The duplicate-function error message of `Metadata::from_module_bytes`. -/
def duplicateFunctionError (n : String) : String :=
  "WebAssembly module has a duplicate function named \x27" ++ n ++ "\x27."

/-- The duplicate-variable error message of `Metadata::from_module_bytes`. -/
def duplicateVariableError (n : String) : String :=
  "WebAssembly module has a duplicate variable named \x27" ++ n ++ "\x27."

/-- Embeds the section-collection loop of `Metadata::from_module_bytes`.
The payload-by-payload walk of the module binary is performed by the
external `wasmparser` crate; it is modelled by its result, the ordered
stream of custom sections (name and contents) of the module.  Sections
named `__functions` and `__vars` are decoded via `read_section_data`; all
other sections are ignored; the first decoding error aborts the walk.
The JSON record decoders (`serde_json`, external) are the parameters
`decF` and `decV`. -/
def collectSections (decF : List Nat → Except String (List Function))
    (decV : List Nat → Except String (List String)) :
    List (String × List Nat) → Except String (List Function × List String)
  | [] => .ok ([], [])
  | (name, data) :: rest =>
    if name = "__functions" then
      match read_section_data decF data with
      | .error e => .error (functionsSectionError e)
      | .ok fs =>
        match collectSections decF decV rest with
        | .error e => .error e
        | .ok (fs2, vs2) => .ok (fs ++ fs2, vs2)
    else if name = "__vars" then
      match read_section_data decV data with
      | .error e => .error (varsSectionError e)
      | .ok vs =>
        match collectSections decF decV rest with
        | .error e => .error e
        | .ok (fs2, vs2) => .ok (fs2, vs ++ vs2)
    else collectSections decF decV rest

/-- Embeds the duplicate-name scan of `Metadata::from_module_bytes`: walk
the names in order keeping a set of names already seen, and report the
first name whose insertion into the set fails. -/
def findDuplicate (seen : List String) : List String → Option String
  | [] => none
  | n :: rest => if seen.contains n then some n else findDuplicate (n :: seen) rest

/-- Embeds the validation tail of `Metadata::from_module_bytes`: the
duplicate-function check, then the duplicate-variable check, then success
with the full decoded metadata. -/
def checkMetadata (fs : List Function) (vs : List String) :
    Except String Metadata :=
  match findDuplicate [] (fs.map Function.name) with
  | some n => .error (duplicateFunctionError n)
  | none =>
    match findDuplicate [] vs with
    | some n => .error (duplicateVariableError n)
    | none => .ok ⟨fs, vs⟩

/-- Embeds `Metadata::from_module_bytes`: collect the `__functions` and
`__vars` custom sections of the module, then validate name uniqueness.
The argument is the custom-section stream produced by the external
`wasmparser` walk of the module bytes. -/
def from_module_sections (decF : List Nat → Except String (List Function))
    (decV : List Nat → Except String (List String))
    (sections : List (String × List Nat)) : Except String Metadata :=
  match collectSections decF decV sections with
  | .error e => .error e
  | .ok (fs, vs) => checkMetadata fs vs

theorem collectSections_append_ok
    {decF : List Nat → Except String (List Function)}
    {decV : List Nat → Except String (List String)}
    {pre : List (String × List Nat)} {fs : List Function} {vs : List String}
    (h : collectSections decF decV pre = .ok (fs, vs))
    (rest : List (String × List Nat)) :
    collectSections decF decV (pre ++ rest) =
      match collectSections decF decV rest with
      | .error e => .error e
      | .ok (fs2, vs2) => .ok (fs ++ fs2, vs ++ vs2) := by
  induction pre generalizing fs vs with
  | nil =>
    simp only [collectSections] at h
    cases h
    simp only [List.nil_append]
    cases hr : collectSections decF decV rest with
    | error e => rfl
    | ok p =>
      cases p with
      | mk fs2 vs2 => simp
  | cons hd tl ih =>
    cases hd with
    | mk name data =>
      by_cases hf : name = "__functions"
      · rw [collectSections, if_pos hf] at h
        rw [List.cons_append, collectSections, if_pos hf]
        cases hsd : read_section_data decF data with
        | error e => rw [hsd] at h; exact absurd h (by simp)
        | ok fs1 =>
          rw [hsd] at h
          cases htl : collectSections decF decV tl with
          | error e => rw [htl] at h; exact absurd h (by simp)
          | ok p =>
            cases p with
            | mk fsa vsa =>
              rw [htl] at h
              simp only [Except.ok.injEq, Prod.mk.injEq] at h
              rw [ih htl]
              cases collectSections decF decV rest with
              | error e => rfl
              | ok q =>
                cases q with
                | mk fs2 vs2 =>
                  simp [← h.1, ← h.2, List.append_assoc]
      · by_cases hv : name = "__vars"
        · rw [collectSections, if_neg hf, if_pos hv] at h
          rw [List.cons_append, collectSections, if_neg hf, if_pos hv]
          cases hsd : read_section_data decV data with
          | error e => rw [hsd] at h; exact absurd h (by simp)
          | ok vs1 =>
            rw [hsd] at h
            cases htl : collectSections decF decV tl with
            | error e => rw [htl] at h; exact absurd h (by simp)
            | ok p =>
              cases p with
              | mk fsa vsa =>
                rw [htl] at h
                simp only [Except.ok.injEq, Prod.mk.injEq] at h
                rw [ih htl]
                cases collectSections decF decV rest with
                | error e => rfl
                | ok q =>
                  cases q with
                  | mk fs2 vs2 =>
                    simp [← h.1, ← h.2, List.append_assoc]
        · rw [collectSections, if_neg hf, if_neg hv] at h
          rw [List.cons_append, collectSections, if_neg hf, if_neg hv]
          exact ih h

theorem findDuplicate_eq_none :
    ∀ (l seen : List String),
      findDuplicate seen l = none ↔ l.Nodup ∧ ∀ x ∈ l, x ∉ seen := by
  intro l
  induction l with
  | nil =>
    intro seen
    simp [findDuplicate]
  | cons n rest ih =>
    intro seen
    rw [findDuplicate]
    by_cases hc : seen.contains n = true
    · have hn : n ∈ seen := List.elem_iff.mp hc
      rw [if_pos hc]
      constructor
      · intro h
        exact absurd h (by simp)
      · rintro ⟨_, h⟩
        exact ((h n (List.mem_cons_self n rest)) hn).elim
    · have hn : n ∉ seen := fun h => hc (List.elem_iff.mpr h)
      rw [if_neg hc, ih (n :: seen)]
      simp only [List.nodup_cons, List.mem_cons, not_or]
      constructor
      · rintro ⟨hnd, hall⟩
        refine ⟨⟨?_, hnd⟩, ?_⟩
        · intro hmem
          exact (hall n hmem).1 rfl
        · intro x hx
          cases hx with
          | inl he => exact he ▸ hn
          | inr hmem => exact (hall x hmem).2
      · rintro ⟨⟨hnr, hnd⟩, hall⟩
        refine ⟨hnd, ?_⟩
        intro x hx
        refine ⟨?_, hall x (Or.inr hx)⟩
        intro he
        exact hnr (he ▸ hx)

theorem findDuplicate_eq_some :
    ∀ (l seen : List String) (n : String), findDuplicate seen l = some n →
      n ∈ l ∧ (n ∈ seen ∨ 2 ≤ l.count n) := by
  intro l
  induction l with
  | nil =>
    intro seen n h
    simp [findDuplicate] at h
  | cons m rest ih =>
    intro seen n h
    rw [findDuplicate] at h
    by_cases hc : seen.contains m = true
    · rw [if_pos hc] at h
      cases h
      exact ⟨List.mem_cons_self m rest, Or.inl (List.elem_iff.mp hc)⟩
    · rw [if_neg hc] at h
      obtain ⟨hmem, hrest⟩ := ih (m :: seen) n h
      refine ⟨List.mem_cons_of_mem m hmem, ?_⟩
      cases hrest with
      | inl hs =>
        cases List.mem_cons.mp hs with
        | inl he =>
          right
          subst he
          have h1 : 0 < rest.count n := List.count_pos_iff.mpr hmem
          rw [List.count_cons_self]
          omega
        | inr hseen => exact Or.inl hseen
      | inr hcount =>
        right
        rw [List.count_cons]
        omega

theorem exists_findDuplicate_of_not_nodup {l : List String}
    (h : ¬ l.Nodup) : ∃ n, findDuplicate [] l = some n ∧ 2 ≤ l.count n := by
  cases hfd : findDuplicate [] l with
  | none => exact absurd ((findDuplicate_eq_none l []).mp hfd).1 h
  | some n =>
    obtain ⟨_, hor⟩ := findDuplicate_eq_some l [] n hfd
    cases hor with
    | inl hmem => exact absurd hmem (List.not_mem_nil n)
    | inr hcount => exact ⟨n, rfl, hcount⟩

theorem findDuplicate_nil_of_nodup {l : List String} (h : l.Nodup) :
    findDuplicate [] l = none :=
  (findDuplicate_eq_none l []).mpr ⟨h, fun x _ => List.not_mem_nil x⟩

/-- C2: for every custom section whose record framing is malformed — a
length field with fewer than four bytes remaining, or a record whose
declared length exceeds the remaining bytes of the section —
`Metadata::from_module_bytes` returns an error (so no partial metadata is
produced and the bad record is not skipped).  The hypothesis `hpre` says
the sections preceding the malformed one decode cleanly, so that the walk
actually reaches the malformed section; `BadFrame` places the malformed
record anywhere in that section, behind any number of well-formed
records. -/
theorem claim_C2_malformed_framing_is_fatal
    (decF : List Nat → Except String (List Function))
    (decV : List Nat → Except String (List String))
    (pre post : List (String × List Nat)) (data : List Nat)
    (fs : List Function) (vs : List String)
    (hpre : collectSections decF decV pre = .ok (fs, vs))
    (hbad : BadFrame decF data) :
    from_module_sections decF decV (pre ++ ("__functions", data) :: post)
      = .error (functionsSectionError framingErrorMsg) := by
  rw [from_module_sections, collectSections_append_ok hpre, collectSections,
    if_pos rfl, read_section_data_badframe hbad]

/-- Witness for C2 at concrete scenario B of the specification: a
`__functions` section holding a record that declares length 100 while only
ten bytes follow. -/
theorem claim_C2_witness :
    read_data_len [100, 0, 0, 0, 1, 2, 3, 4, 5, 6, 7, 8, 9, 10] = some 100 ∧
    from_module_sections (fun _ => .ok []) (fun _ => .ok [])
        ([] ++ ("__functions",
          [100, 0, 0, 0, 1, 2, 3, 4, 5, 6, 7, 8, 9, 10]) :: [])
      = .error (functionsSectionError framingErrorMsg) :=
  ⟨by decide,
    claim_C2_malformed_framing_is_fatal (fun _ => .ok []) (fun _ => .ok [])
      [] [] [100, 0, 0, 0, 1, 2, 3, 4, 5, 6, 7, 8, 9, 10] [] [] rfl
      (@BadFrame.overlong Function (fun _ => .ok [])
        [100, 0, 0, 0, 1, 2, 3, 4, 5, 6, 7, 8, 9, 10] 100
        (by decide) (by decide))⟩

theorem from_module_sections_ok
    {decF : List Nat → Except String (List Function)}
    {decV : List Nat → Except String (List String)}
    {sections : List (String × List Nat)}
    {fs : List Function} {vs : List String}
    (hok : collectSections decF decV sections = .ok (fs, vs)) :
    from_module_sections decF decV sections = checkMetadata fs vs := by
  rw [from_module_sections, hok]

/-- C3: when the decoded function descriptors contain two functions with
the same name, or the decoded variables contain two identical names,
`Metadata::from_module_bytes` fails with an error naming the duplicated
entry; when all function names and all variable names are distinct, the
uniqueness check succeeds and the full decoded metadata is returned.  The
hypothesis fixes the outcome of the section walk; the three conjuncts
cover duplicate function names, duplicate variable names, and the
all-distinct case. -/
theorem claim_C3_duplicate_names
    (decF : List Nat → Except String (List Function))
    (decV : List Nat → Except String (List String))
    (sections : List (String × List Nat))
    (fs : List Function) (vs : List String)
    (hok : collectSections decF decV sections = .ok (fs, vs)) :
    (¬ (fs.map Function.name).Nodup →
      ∃ n, 2 ≤ (fs.map Function.name).count n ∧
        from_module_sections decF decV sections
          = .error (duplicateFunctionError n)) ∧
    ((fs.map Function.name).Nodup → ¬ vs.Nodup →
      ∃ n, 2 ≤ vs.count n ∧
        from_module_sections decF decV sections
          = .error (duplicateVariableError n)) ∧
    ((fs.map Function.name).Nodup → vs.Nodup →
      from_module_sections decF decV sections = .ok ⟨fs, vs⟩) := by
  refine ⟨?_, ?_, ?_⟩
  · intro hdup
    obtain ⟨n, hsome, hcount⟩ := exists_findDuplicate_of_not_nodup hdup
    refine ⟨n, hcount, ?_⟩
    rw [from_module_sections_ok hok]
    unfold checkMetadata
    rw [hsome]
  · intro hnd hdup
    obtain ⟨n, hsome, hcount⟩ := exists_findDuplicate_of_not_nodup hdup
    refine ⟨n, hcount, ?_⟩
    rw [from_module_sections_ok hok]
    unfold checkMetadata
    rw [findDuplicate_nil_of_nodup hnd, hsome]
  · intro hnd hndv
    rw [from_module_sections_ok hok]
    unfold checkMetadata
    rw [findDuplicate_nil_of_nodup hnd, findDuplicate_nil_of_nodup hndv]

/-- Witness for C3: a module whose single `__functions` record decodes to
two descriptors both named `a` is rejected with the duplicate-function
error; the same module with distinctly named descriptors loads fully. -/
theorem claim_C3_witness :
    collectSections
        (fun _ => .ok [⟨"a", .http ("/") [], [], []⟩,
                       ⟨"a", .http ("/b") [.get], [], [.http]⟩])
        (fun _ => .ok []) [("__functions", [0, 0, 0, 0])]
      = .ok ([⟨"a", .http ("/") [], [], []⟩,
              ⟨"a", .http ("/b") [.get], [], [.http]⟩], []) ∧
    ∃ n, 2 ≤ (([⟨"a", .http ("/") [], [], []⟩,
                ⟨"a", .http ("/b") [.get], [], [.http]⟩] :
                  List Function).map Function.name).count n ∧
      from_module_sections
          (fun _ => .ok [⟨"a", .http ("/") [], [], []⟩,
                         ⟨"a", .http ("/b") [.get], [], [.http]⟩])
          (fun _ => .ok []) [("__functions", [0, 0, 0, 0])]
        = .error (duplicateFunctionError n) :=
  ⟨by decide,
    (claim_C3_duplicate_names
      (fun _ => .ok [⟨"a", .http ("/") [], [], []⟩,
                     ⟨"a", .http ("/b") [.get], [], [.http]⟩])
      (fun _ => .ok []) [("__functions", [0, 0, 0, 0])]
      [⟨"a", .http ("/") [], [], []⟩, ⟨"a", .http ("/b") [.get], [], [.http]⟩]
      [] (by decide)).1 (by decide)⟩

/-- The error message of the zero-functions check in `Server::new`. -/
def noFunctionsError : String := "module contains no Wasmtime functions"

/-- Embeds the zero-functions check at the start of `Server::new`
(crates/runtime/src/server.rs): after metadata extraction succeeds, a
module declaring no functions aborts server startup. -/
def serverFunctionsCheck (md : Metadata) : Except String Unit :=
  if md.functions.isEmpty then .error noFunctionsError else .ok ()

/-- C8: a well-formed module whose routing sections yield zero function
descriptors still extracts successfully with an empty functions list
(first conjunct); rejecting the no-functions case is done by server
startup, which fails exactly on empty metadata (second and third
conjuncts). -/
theorem claim_C8_zero_functions_rejected_at_startup :
    (∀ (decF : List Nat → Except String (List Function))
       (decV : List Nat → Except String (List String))
       (sections : List (String × List Nat)) (vs : List String),
       collectSections decF decV sections = .ok ([], vs) → vs.Nodup →
       from_module_sections decF decV sections = .ok ⟨[], vs⟩) ∧
    (∀ md : Metadata, md.functions = [] →
       serverFunctionsCheck md = .error noFunctionsError) ∧
    (∀ md : Metadata, md.functions ≠ [] →
       serverFunctionsCheck md = .ok ()) := by
  refine ⟨?_, ?_, ?_⟩
  · intro decF decV sections vs hok hnd
    rw [from_module_sections_ok hok]
    unfold checkMetadata
    simp only [List.map_nil]
    rw [show findDuplicate [] [] = none from rfl,
      findDuplicate_nil_of_nodup hnd]
  · intro md h
    rw [serverFunctionsCheck, if_pos (by rw [h]; rfl)]
  · intro md h
    rw [serverFunctionsCheck, if_neg ?_]
    intro hc
    exact h (List.isEmpty_iff.mp hc)

/-- Witness for C8: a module whose `__functions` section decodes to zero
descriptors extracts as empty metadata, which server startup then
rejects; a one-function metadata passes the startup check. -/
theorem claim_C8_witness :
    collectSections (fun _ => .ok []) (fun _ => .ok [])
        [("__functions", [0, 0, 0, 0])] = .ok ([], []) ∧
    from_module_sections (fun _ => .ok []) (fun _ => .ok [])
        [("__functions", [0, 0, 0, 0])] = .ok ⟨[], []⟩ ∧
    serverFunctionsCheck ⟨[], []⟩ = .error noFunctionsError ∧
    serverFunctionsCheck ⟨[⟨"a", .http ("/") [], [], []⟩], []⟩ = .ok () :=
  ⟨by decide,
    claim_C8_zero_functions_rejected_at_startup.1 (fun _ => .ok [])
      (fun _ => .ok []) [("__functions", [0, 0, 0, 0])] [] (by decide)
      (by decide),
    claim_C8_zero_functions_rejected_at_startup.2.1 ⟨[], []⟩ rfl,
    claim_C8_zero_functions_rejected_at_startup.2.2
      ⟨[⟨"a", .http ("/") [], [], []⟩], []⟩ (by decide)⟩

/- ===================================================================
   Part 2: the per-invocation resource table (crates/runtime/src/host.rs)
   =================================================================== -/

/-- Embeds `types::Error` from the witx-generated boundary error type used
by crates/runtime/src/host.rs. -/
inductive HostError where
  | invalidArgument
  | invalidHandle
  | handlesExhausted
  | invalidPointer
  | invalidUtf8
  | invalidLength
  | integerOverflow
deriving DecidableEq, Repr

/-- Embeds `http_types::cookies::SameSite` as used by
`cookie_same_site_set`. -/
inductive SameSitePolicy where
  | strict
  | lax
  | none
deriving DecidableEq, Repr

/-- Embeds `http_types::Cookie`: name, value and the attributes settable
through the host call surface.  `Cookie::new` leaves all attributes
unset. -/
structure Cookie where
  name : String
  value : String
  httpOnly : Bool
  secure : Bool
  maxAge : Option Int
  sameSite : Option SameSitePolicy
  domain : Option String
  path : Option String
deriving DecidableEq, Repr

/-- Embeds `http_types::Cookie::new`. -/
def Cookie.new (name value : String) : Cookie :=
  ⟨name, value, false, false, .none, .none, .none, .none⟩

/-- Embeds the parts of `tide::Response` observable through the host call
surface: status code, header map and cookie set.  The body bytes are kept
separately by the host, exactly as in `HandleContent::Response`. -/
structure TideResponse where
  status : Nat
  headers : List (String × String)
  cookies : List Cookie
deriving DecidableEq, Repr

/-- Embeds `tide::Response::new`. -/
def TideResponse.new (status : Nat) : TideResponse := ⟨status, [], []⟩

/-- Modelled from the spec: `response.new` validates the numeric status
code range (the concrete code set lives in the external `http_types`
crate, whose `StatusCode::try_from` the source calls; out-of-range codes
become `InvalidArgument`). -/
def validStatus (s : Nat) : Bool := 100 ≤ s && s ≤ 599

/-- Embeds the inbound request snapshot stored by `HostContextInner`
(`crate::server::Request`); only the projections the claims need. -/
structure HostRequest where
  method : Method
  url : String
deriving DecidableEq, Repr

/-- Embeds `HandleContent` from crates/runtime/src/host.rs: the tagged
union of host-owned resources stored behind integer handles. -/
inductive HandleContent where
  | response (r : TideResponse) (body : List Nat)
  | cookie (c : Cookie)
deriving DecidableEq, Repr

/-- Association-list model of the `HashMap<u32, HandleContent>` used by
`HostContextInner`: lookup of the first binding for a key. -/
def hmLookup (k : Nat) : List (Nat × HandleContent) → Option HandleContent
  | [] => .none
  | (k2, v) :: rest => if k = k2 then some v else hmLookup k rest

/-- `HashMap::insert`: bind `k` to `v`, replacing any previous binding. -/
def hmInsert (k : Nat) (v : HandleContent)
    (m : List (Nat × HandleContent)) : List (Nat × HandleContent) :=
  (k, v) :: m.filter (fun p => p.1 ≠ k)

/-- `HashMap::remove`: drop the binding for `k`. -/
def hmErase (k : Nat) (m : List (Nat × HandleContent)) :
    List (Nat × HandleContent) :=
  m.filter (fun p => p.1 ≠ k)

/-- Embeds `HostContextInner` from crates/runtime/src/host.rs.  The
`last_handle` counter is a `u32` in the source; it is modelled as a `Nat`
that the operations keep below `2^32`. -/
structure HostContextInner where
  request : HostRequest × List Nat
  handles : List (Nat × HandleContent)
  last_handle : Nat
deriving DecidableEq, Repr

/-- The largest `u32` value, at which `checked_add(1)` fails. -/
def u32Max : Nat := 4294967295

/-- Embeds `HostContextInner::next_handle_value`: increments the counter,
failing with `HandlesExhausted` instead of wrapping when the counter sits
at the maximum `u32` value. -/
def next_handle_value (s : HostContextInner) :
    Except HostError Nat × HostContextInner :=
  if s.last_handle < u32Max then
    (.ok (s.last_handle + 1), { s with last_handle := s.last_handle + 1 })
  else (.error .handlesExhausted, s)

/-- Embeds `HostContextInner::insert_response`: validate the status code,
allocate a handle, store a fresh response with an empty body buffer. -/
def insert_response (status : Nat) (s : HostContextInner) :
    Except HostError Nat × HostContextInner :=
  if validStatus status then
    match next_handle_value s with
    | (.ok h, s1) =>
      (.ok h, { s1 with
        handles := hmInsert h (.response (TideResponse.new status) []) s1.handles })
    | (.error e, s1) => (.error e, s1)
  else (.error .invalidArgument, s)

/-- Embeds `HostContextInner::insert_cookie`. -/
def insert_cookie (name value : String) (s : HostContextInner) :
    Except HostError Nat × HostContextInner :=
  match next_handle_value s with
  | (.ok h, s1) =>
    (.ok h, { s1 with
      handles := hmInsert h (.cookie (Cookie.new name value)) s1.handles })
  | (.error e, s1) => (.error e, s1)

/-- Embeds `HostContextInner::get_response` (and, for state purposes,
`get_response_mut`): a handle dereferences to a response only when it is
bound to response content. -/
def get_response (s : HostContextInner) (h : Nat) :
    Option (TideResponse × List Nat) :=
  match hmLookup h s.handles with
  | some (.response r b) => some (r, b)
  | _ => .none

/-- Embeds `HostContextInner::get_cookie_mut`. -/
def get_cookie (s : HostContextInner) (h : Nat) : Option Cookie :=
  match hmLookup h s.handles with
  | some (.cookie c) => some c
  | _ => .none

/-- Embeds `HostContextInner::remove_response`: fails with
`InvalidHandle` (leaving the table untouched) unless the handle is bound
to response content, in which case the binding is removed and its content
returned. -/
def remove_response (h : Nat) (s : HostContextInner) :
    Except HostError (TideResponse × List Nat) × HostContextInner :=
  match get_response s h with
  | .none => (.error .invalidHandle, s)
  | some rb => (.ok rb, { s with handles := hmErase h s.handles })

/-- Embeds `HostContextInner::remove_cookie`. -/
def remove_cookie (h : Nat) (s : HostContextInner) :
    Except HostError Cookie × HostContextInner :=
  match get_cookie s h with
  | .none => (.error .invalidHandle, s)
  | some c => (.ok c, { s with handles := hmErase h s.handles })

/-- Embeds `HostContext::new`: a fresh table seeded with the request, no
handles, counter at zero. -/
def HostContext.new (req : HostRequest) (body : List Nat) :
    HostContextInner :=
  ⟨(req, body), [], 0⟩

/-- Embeds the host call `response_status_get` (host call surface wrapper
over `get_response`): a failed dereference becomes `InvalidHandle` and the
table is untouched. -/
def response_status_get (h : Nat) (s : HostContextInner) :
    Except HostError Nat × HostContextInner :=
  match get_response s h with
  | .none => (.error .invalidHandle, s)
  | some (r, _) => (.ok r.status, s)

/-- Embeds the host call `cookie_http_only_set` (host call surface wrapper
over `get_cookie_mut`): mutates the cookie in place on success, returns
`InvalidHandle` leaving the table untouched otherwise. -/
def cookie_http_only_set (h : Nat) (s : HostContextInner) :
    Except HostError Unit × HostContextInner :=
  match get_cookie s h with
  | .none => (.error .invalidHandle, s)
  | some c =>
    (.ok (), { s with
      handles := hmInsert h (.cookie { c with httpOnly := true }) s.handles })

/-- Embeds `tide::Response::insert_cookie` as reached from
`response_cookie_insert`: the cookie joins the response cookie set. -/
def responseWithCookie (r : TideResponse) (c : Cookie) : TideResponse :=
  { r with cookies := r.cookies ++ [c] }

/-- Embeds `tide::Response::remove_cookie` as reached from
`response_cookie_remove`: registrations for the cookie name are dropped
from the response cookie set. -/
def responseWithoutCookie (r : TideResponse) (c : Cookie) : TideResponse :=
  { r with cookies := r.cookies.filter (fun c2 => c2.name ≠ c.name) }

/-- Embeds `HostContext::response_cookie_insert`: first removes the cookie
from the table (transferring ownership), then dereferences the response
handle; an invalid response handle surfaces as `InvalidHandle` after the
cookie entry is already gone. -/
def response_cookie_insert (resp cookieH : Nat) (s : HostContextInner) :
    Except HostError Unit × HostContextInner :=
  match remove_cookie cookieH s with
  | (.error e, s1) => (.error e, s1)
  | (.ok c, s1) =>
    match get_response s1 resp with
    | .none => (.error .invalidHandle, s1)
    | some (r, b) =>
      (.ok (), { s1 with
        handles := hmInsert resp (.response (responseWithCookie r c) b) s1.handles })

/-- Embeds `HostContext::response_cookie_remove`: same ownership transfer
as `response_cookie_insert`, removing instead of inserting. -/
def response_cookie_remove (resp cookieH : Nat) (s : HostContextInner) :
    Except HostError Unit × HostContextInner :=
  match remove_cookie cookieH s with
  | (.error e, s1) => (.error e, s1)
  | (.ok c, s1) =>
    match get_response s1 resp with
    | .none => (.error .invalidHandle, s1)
    | some (r, b) =>
      (.ok (), { s1 with
        handles := hmInsert resp (.response (responseWithoutCookie r c) b) s1.handles })

/-- Erasing a key affects lookups exactly at that key (the erase
predicate depends only on the key, never on the stored content). -/
theorem hmLookup_erase (k ch : Nat) (m : List (Nat × HandleContent)) :
    hmLookup k (hmErase ch m) = if k = ch then .none else hmLookup k m := by
  induction m with
  | nil =>
    simp [hmErase, hmLookup]
  | cons p rest ih =>
    obtain ⟨k2, v⟩ := p
    by_cases h2 : k2 = ch
    · subst h2
      by_cases hk : k = k2
      · subst hk
        simpa [hmErase, List.filter_cons, hmLookup] using ih
      · simpa [hmErase, List.filter_cons, hmLookup, hk] using ih
    · by_cases hk : k = k2
      · subst hk
        simp [hmErase, List.filter_cons, h2, hmLookup, if_neg h2]
      · simpa [hmErase, List.filter_cons, h2, hmLookup, hk] using ih

theorem hmLookup_erase_self (k : Nat) (m : List (Nat × HandleContent)) :
    hmLookup k (hmErase k m) = .none := by
  rw [hmLookup_erase, if_pos rfl]

theorem hmLookup_insert_self (k : Nat) (v : HandleContent)
    (m : List (Nat × HandleContent)) :
    hmLookup k (hmInsert k v m) = some v := by
  simp [hmInsert, hmLookup]

/-- Removing a binding strictly shrinks the table. -/
theorem hmErase_length_lt {k : Nat} {m : List (Nat × HandleContent)}
    {v : HandleContent} (h : hmLookup k m = some v) :
    (hmErase k m).length < m.length := by
  induction m with
  | nil => simp [hmLookup] at h
  | cons p rest ih =>
    obtain ⟨k2, v2⟩ := p
    rw [hmLookup] at h
    by_cases hk : k = k2
    · have hcond : ¬ ((k2, v2).1 ≠ k) := by simp [hk.symm]
      rw [hmErase, List.filter_cons, if_neg (by simpa using hcond)]
      calc (rest.filter (fun p => p.1 ≠ k)).length
          ≤ rest.length := List.length_filter_le _ _
        _ < (⟨k2, v2⟩ :: rest : List (Nat × HandleContent)).length := by simp
    · rw [if_neg hk] at h
      have := ih h
      rw [hmErase, List.filter_cons, if_pos (by simpa using Ne.symm hk)]
      simpa [hmErase] using Nat.succ_lt_succ this

/-- A handle that does not dereference as a response still does not after
any erase (the erase can only drop bindings). -/
theorem get_response_erase_none {s : HostContextInner} {rh : Nat}
    (ch : Nat) (h : get_response s rh = .none) :
    get_response { s with handles := hmErase ch s.handles } rh = .none := by
  rw [get_response] at h ⊢
  simp only [hmLookup_erase]
  by_cases hk : rh = ch
  · rw [if_pos hk]
  · rw [if_neg hk]
    exact h

theorem get_cookie_eq_none {s : HostContextInner} {h : Nat}
    (hl : hmLookup h s.handles = .none) : get_cookie s h = .none := by
  rw [get_cookie, hl]

theorem get_cookie_eq_some {s : HostContextInner} {h : Nat} {c : Cookie}
    (hl : hmLookup h s.handles = some (.cookie c)) :
    get_cookie s h = some c := by
  rw [get_cookie, hl]

theorem get_response_eq_none {s : HostContextInner} {h : Nat}
    (hl : hmLookup h s.handles = .none) : get_response s h = .none := by
  rw [get_response, hl]

theorem get_response_eq_some {s : HostContextInner} {h : Nat}
    {r : TideResponse} {b : List Nat}
    (hl : hmLookup h s.handles = some (.response r b)) :
    get_response s h = some (r, b) := by
  rw [get_response, hl]

theorem remove_cookie_of_none {s : HostContextInner} {h : Nat}
    (hg : get_cookie s h = .none) :
    remove_cookie h s = (.error .invalidHandle, s) := by
  rw [remove_cookie, hg]

theorem remove_cookie_of_some {s : HostContextInner} {h : Nat} {c : Cookie}
    (hg : get_cookie s h = some c) :
    remove_cookie h s = (.ok c, { s with handles := hmErase h s.handles }) := by
  rw [remove_cookie, hg]

theorem remove_response_of_none {s : HostContextInner} {h : Nat}
    (hg : get_response s h = .none) :
    remove_response h s = (.error .invalidHandle, s) := by
  rw [remove_response, hg]

theorem remove_response_of_some {s : HostContextInner} {h : Nat}
    {r : TideResponse} {b : List Nat} (hg : get_response s h = some (r, b)) :
    remove_response h s
      = (.ok (r, b), { s with handles := hmErase h s.handles }) := by
  rw [remove_response, hg]

/-- C4: on any table state with headroom in the handle counter, inserting
a resource and then removing it with the correct kind returns exactly the
inserted value, and a second remove of the same handle fails with
`InvalidHandle` and leaves the state as it was — the value comes back
exactly once.  Stated for both resource kinds (cookies and responses). -/
theorem claim_C4_insert_remove_exactly_once
    (s : HostContextInner) (name value : String) (status : Nat)
    (hroom : s.last_handle < u32Max) :
    (∃ h s1, insert_cookie name value s = (.ok h, s1) ∧
      ∃ s2, remove_cookie h s1 = (.ok (Cookie.new name value), s2) ∧
        remove_cookie h s2 = (.error .invalidHandle, s2)) ∧
    (validStatus status = true →
      ∃ h s1, insert_response status s = (.ok h, s1) ∧
        ∃ s2, remove_response h s1 = (.ok (TideResponse.new status, []), s2) ∧
          remove_response h s2 = (.error .invalidHandle, s2)) := by
  constructor
  · refine ⟨s.last_handle + 1,
      { s with last_handle := s.last_handle + 1,
               handles := hmInsert (s.last_handle + 1)
                 (.cookie (Cookie.new name value)) s.handles }, ?_,
      { s with last_handle := s.last_handle + 1,
               handles := hmErase (s.last_handle + 1)
                 (hmInsert (s.last_handle + 1)
                   (.cookie (Cookie.new name value)) s.handles) }, ?_, ?_⟩
    · rw [insert_cookie, next_handle_value, if_pos hroom]
    · exact remove_cookie_of_some
        (get_cookie_eq_some (hmLookup_insert_self _ _ _))
    · exact remove_cookie_of_none
        (get_cookie_eq_none (hmLookup_erase_self _ _))
  · intro hvs
    refine ⟨s.last_handle + 1,
      { s with last_handle := s.last_handle + 1,
               handles := hmInsert (s.last_handle + 1)
                 (.response (TideResponse.new status) []) s.handles }, ?_,
      { s with last_handle := s.last_handle + 1,
               handles := hmErase (s.last_handle + 1)
                 (hmInsert (s.last_handle + 1)
                   (.response (TideResponse.new status) []) s.handles) }, ?_, ?_⟩
    · rw [insert_response, if_pos hvs, next_handle_value, if_pos hroom]
    · exact remove_response_of_some
        (get_response_eq_some (hmLookup_insert_self _ _ _))
    · exact remove_response_of_none
        (get_response_eq_none (hmLookup_erase_self _ _))

/-- Witness for C4 on a fresh invocation table. -/
theorem claim_C4_witness :
    (HostContext.new ⟨.get, ""⟩ []).last_handle < u32Max ∧
    validStatus 200 = true ∧
    ((∃ h s1, insert_cookie ("n") ("v") (HostContext.new ⟨.get, ""⟩ []) = (.ok h, s1) ∧
      ∃ s2, remove_cookie h s1 = (.ok (Cookie.new ("n") ("v")), s2) ∧
        remove_cookie h s2 = (.error .invalidHandle, s2)) ∧
    (validStatus 200 = true →
      ∃ h s1, insert_response 200 (HostContext.new ⟨.get, ""⟩ []) = (.ok h, s1) ∧
        ∃ s2, remove_response h s1 = (.ok (TideResponse.new 200, []), s2) ∧
          remove_response h s2 = (.error .invalidHandle, s2))) :=
  ⟨by decide, by decide,
    claim_C4_insert_remove_exactly_once (HostContext.new ⟨.get, ""⟩ [])
      ("n") ("v") 200 (by decide)⟩

/-- C5: dereferencing a handle (get, get-mut or remove) with a resource
kind different from the kind it was inserted with returns `InvalidHandle`
and leaves the table unchanged, for both kind mismatches; the wrapped
host calls `response_status_get` and `cookie_http_only_set` exhibit the
`InvalidHandle` error code surfaced to the guest. -/
theorem claim_C5_wrong_kind_is_invalid_handle
    (s : HostContextInner) (h : Nat) :
    (∀ c, hmLookup h s.handles = some (.cookie c) →
      get_response s h = .none ∧
      remove_response h s = (.error .invalidHandle, s) ∧
      response_status_get h s = (.error .invalidHandle, s)) ∧
    (∀ r b, hmLookup h s.handles = some (.response r b) →
      get_cookie s h = .none ∧
      remove_cookie h s = (.error .invalidHandle, s) ∧
      cookie_http_only_set h s = (.error .invalidHandle, s)) := by
  constructor
  · intro c hc
    have hgr : get_response s h = .none := by
      rw [get_response, hc]
    exact ⟨hgr, by rw [remove_response, hgr], by rw [response_status_get, hgr]⟩
  · intro r b hr
    have hgc : get_cookie s h = .none := by
      rw [get_cookie, hr]
    exact ⟨hgc, by rw [remove_cookie, hgc], by rw [cookie_http_only_set, hgc]⟩

/-- Witness for C5 on a table holding a cookie at handle 1 and a response
at handle 2. -/
theorem claim_C5_witness :
    (hmLookup 1 [(1, .cookie (Cookie.new ("n") ("v"))),
                 (2, .response (TideResponse.new 200) [])]
        = some (.cookie (Cookie.new ("n") ("v"))) ∧
      hmLookup 2 [(1, .cookie (Cookie.new ("n") ("v"))),
                  (2, .response (TideResponse.new 200) [])]
        = some (.response (TideResponse.new 200) [])) ∧
    (get_response ⟨(⟨.get, ""⟩, []),
        [(1, .cookie (Cookie.new ("n") ("v"))),
         (2, .response (TideResponse.new 200) [])], 2⟩ 1 = .none ∧
      remove_response 1 ⟨(⟨.get, ""⟩, []),
          [(1, .cookie (Cookie.new ("n") ("v"))),
           (2, .response (TideResponse.new 200) [])], 2⟩
        = (.error .invalidHandle, ⟨(⟨.get, ""⟩, []),
            [(1, .cookie (Cookie.new ("n") ("v"))),
             (2, .response (TideResponse.new 200) [])], 2⟩) ∧
      response_status_get 1 ⟨(⟨.get, ""⟩, []),
          [(1, .cookie (Cookie.new ("n") ("v"))),
           (2, .response (TideResponse.new 200) [])], 2⟩
        = (.error .invalidHandle, ⟨(⟨.get, ""⟩, []),
            [(1, .cookie (Cookie.new ("n") ("v"))),
             (2, .response (TideResponse.new 200) [])], 2⟩)) ∧
    (get_cookie ⟨(⟨.get, ""⟩, []),
        [(1, .cookie (Cookie.new ("n") ("v"))),
         (2, .response (TideResponse.new 200) [])], 2⟩ 2 = .none ∧
      remove_cookie 2 ⟨(⟨.get, ""⟩, []),
          [(1, .cookie (Cookie.new ("n") ("v"))),
           (2, .response (TideResponse.new 200) [])], 2⟩
        = (.error .invalidHandle, ⟨(⟨.get, ""⟩, []),
            [(1, .cookie (Cookie.new ("n") ("v"))),
             (2, .response (TideResponse.new 200) [])], 2⟩) ∧
      cookie_http_only_set 2 ⟨(⟨.get, ""⟩, []),
          [(1, .cookie (Cookie.new ("n") ("v"))),
           (2, .response (TideResponse.new 200) [])], 2⟩
        = (.error .invalidHandle, ⟨(⟨.get, ""⟩, []),
            [(1, .cookie (Cookie.new ("n") ("v"))),
             (2, .response (TideResponse.new 200) [])], 2⟩)) :=
  ⟨⟨by decide, by decide⟩,
    (claim_C5_wrong_kind_is_invalid_handle ⟨(⟨.get, ""⟩, []),
        [(1, .cookie (Cookie.new ("n") ("v"))),
         (2, .response (TideResponse.new 200) [])], 2⟩ 1).1
      (Cookie.new ("n") ("v")) (by decide),
    (claim_C5_wrong_kind_is_invalid_handle ⟨(⟨.get, ""⟩, []),
        [(1, .cookie (Cookie.new ("n") ("v"))),
         (2, .response (TideResponse.new 200) [])], 2⟩ 2).2
      (TideResponse.new 200) [] (by decide)⟩

/-- C10: calling `response_cookie_insert` or `response_cookie_remove`
with a valid cookie handle but an invalid response handle returns
`InvalidHandle`, yet the cookie has already been removed from the table:
the resulting state has dropped the cookie binding (the cookie handle is
dead and its resource lost), and it differs from the starting state — the
operation is not atomic on error. -/
theorem claim_C10_cookie_transfer_not_atomic
    (s : HostContextInner) (rh ch : Nat) (c : Cookie)
    (hck : hmLookup ch s.handles = some (.cookie c))
    (hrn : get_response s rh = .none) :
    response_cookie_insert rh ch s
        = (.error .invalidHandle, { s with handles := hmErase ch s.handles }) ∧
    response_cookie_remove rh ch s
        = (.error .invalidHandle, { s with handles := hmErase ch s.handles }) ∧
    get_cookie { s with handles := hmErase ch s.handles } ch = .none ∧
    (hmErase ch s.handles).length < s.handles.length := by
  have hrm : remove_cookie ch s
      = (.ok c, { s with handles := hmErase ch s.handles }) :=
    remove_cookie_of_some (get_cookie_eq_some hck)
  have hrn2 : get_response { s with handles := hmErase ch s.handles } rh
      = .none := get_response_erase_none ch hrn
  refine ⟨?_, ?_, ?_, hmErase_length_lt hck⟩
  · simp only [response_cookie_insert, hrm, hrn2]
  · simp only [response_cookie_remove, hrm, hrn2]
  · exact get_cookie_eq_none (hmLookup_erase_self ch s.handles)

/-- Witness for C10: a table holding only a cookie at handle 1; handle 7
is not a response handle. -/
theorem claim_C10_witness :
    hmLookup 1 [(1, .cookie (Cookie.new ("n") ("v")))]
        = some (.cookie (Cookie.new ("n") ("v"))) ∧
    get_response (⟨(⟨.get, ""⟩, []),
        [(1, .cookie (Cookie.new ("n") ("v")))], 1⟩ : HostContextInner) 7
      = .none ∧
    (response_cookie_insert 7 1 (⟨(⟨.get, ""⟩, []),
          [(1, .cookie (Cookie.new ("n") ("v")))], 1⟩ : HostContextInner)
        = (.error .invalidHandle, ⟨(⟨.get, ""⟩, []),
            hmErase 1 [(1, .cookie (Cookie.new ("n") ("v")))], 1⟩) ∧
      response_cookie_remove 7 1 (⟨(⟨.get, ""⟩, []),
          [(1, .cookie (Cookie.new ("n") ("v")))], 1⟩ : HostContextInner)
        = (.error .invalidHandle, ⟨(⟨.get, ""⟩, []),
            hmErase 1 [(1, .cookie (Cookie.new ("n") ("v")))], 1⟩) ∧
      get_cookie (⟨(⟨.get, ""⟩, []),
          hmErase 1 [(1, .cookie (Cookie.new ("n") ("v")))], 1⟩ :
            HostContextInner) 1 = .none ∧
      (hmErase 1 [(1, .cookie (Cookie.new ("n") ("v")))]).length
        < ([(1, .cookie (Cookie.new ("n") ("v")))] :
            List (Nat × HandleContent)).length) :=
  ⟨by decide, by decide,
    claim_C10_cookie_transfer_not_atomic
      ⟨(⟨.get, ""⟩, []), [(1, .cookie (Cookie.new ("n") ("v")))], 1⟩
      7 1 (Cookie.new ("n") ("v")) (by decide) (by decide)⟩

/-- The operations of the resource table as invoked over one invocation
(the state-changing operation families of the host call surface that touch
handle allocation: create and destroy for both resource kinds). -/
inductive TableOp where
  | insertResp (status : Nat)
  | insertCook (name value : String)
  | removeResp (h : Nat)
  | removeCook (h : Nat)
deriving DecidableEq, Repr

/-- One step of an invocation trace: run the operation, recording the
handle when the operation is an allocation that succeeds. -/
def stepOp (s : HostContextInner) : TableOp → HostContextInner × Option Nat
  | .insertResp st =>
    match insert_response st s with
    | (.ok h, s1) => (s1, some h)
    | (.error _, s1) => (s1, .none)
  | .insertCook n v =>
    match insert_cookie n v s with
    | (.ok h, s1) => (s1, some h)
    | (.error _, s1) => (s1, .none)
  | .removeResp h => ((remove_response h s).2, .none)
  | .removeCook h => ((remove_cookie h s).2, .none)

/-- Run a trace of table operations, returning the final state and the
handles returned by the allocations, in order. -/
def runOps (s : HostContextInner) : List TableOp → HostContextInner × List Nat
  | [] => (s, [])
  | op :: ops =>
    ((runOps (stepOp s op).1 ops).1,
      ((stepOp s op).2.toList ++ (runOps (stepOp s op).1 ops).2))

theorem next_handle_value_last {s : HostContextInner} :
    s.last_handle ≤ (next_handle_value s).2.last_handle ∧
    (∀ h, (next_handle_value s).1 = .ok h →
      h = s.last_handle + 1 ∧ (next_handle_value s).2.last_handle = h) := by
  rw [next_handle_value]
  by_cases hr : s.last_handle < u32Max
  · rw [if_pos hr]
    exact ⟨Nat.le_succ _, fun h hh => by cases hh; exact ⟨rfl, rfl⟩⟩
  · rw [if_neg hr]
    exact ⟨le_refl _, fun h hh => by cases hh⟩

theorem stepOp_last (s : HostContextInner) (op : TableOp) :
    s.last_handle ≤ (stepOp s op).1.last_handle ∧
    (∀ h, (stepOp s op).2 = some h →
      h = s.last_handle + 1 ∧ (stepOp s op).1.last_handle = h) := by
  cases op with
  | insertResp st =>
    rw [stepOp, insert_response]
    by_cases hv : validStatus st
    · rw [if_pos hv]
      obtain ⟨hmono, hok⟩ := next_handle_value_last (s := s)
      cases hn : next_handle_value s with
      | mk r s1 =>
        cases r with
        | ok h =>
          obtain ⟨hh, hl⟩ := hok h (by rw [hn])
          constructor
          · show s.last_handle ≤ s1.last_handle
            rw [hn] at hmono
            exact hmono
          · intro h2 hh2
            cases hh2
            rw [hn] at hl
            exact ⟨hh, hl⟩
        | error e =>
          constructor
          · show s.last_handle ≤ s1.last_handle
            rw [hn] at hmono
            exact hmono
          · intro h2 hh2
            cases hh2
    · rw [if_neg hv]
      exact ⟨le_refl _, fun h hh => by cases hh⟩
  | insertCook n v =>
    rw [stepOp, insert_cookie]
    obtain ⟨hmono, hok⟩ := next_handle_value_last (s := s)
    cases hn : next_handle_value s with
    | mk r s1 =>
      cases r with
      | ok h =>
        obtain ⟨hh, hl⟩ := hok h (by rw [hn])
        constructor
        · show s.last_handle ≤ s1.last_handle
          rw [hn] at hmono
          exact hmono
        · intro h2 hh2
          cases hh2
          rw [hn] at hl
          exact ⟨hh, hl⟩
      | error e =>
        constructor
        · show s.last_handle ≤ s1.last_handle
          rw [hn] at hmono
          exact hmono
        · intro h2 hh2
          cases hh2
  | removeResp h =>
    rw [stepOp, remove_response]
    cases get_response s h with
    | none => exact ⟨le_refl _, fun h2 hh2 => by cases hh2⟩
    | some rb => exact ⟨le_refl _, fun h2 hh2 => by cases hh2⟩
  | removeCook h =>
    rw [stepOp, remove_cookie]
    cases get_cookie s h with
    | none => exact ⟨le_refl _, fun h2 hh2 => by cases hh2⟩
    | some c => exact ⟨le_refl _, fun h2 hh2 => by cases hh2⟩

/-- Trace invariant: the counter never decreases, every returned handle
lies strictly between the counter at the start of the trace and the final
counter, and the returned handles are strictly increasing. -/
theorem runOps_invariant (ops : List TableOp) :
    ∀ s : HostContextInner,
      s.last_handle ≤ (runOps s ops).1.last_handle ∧
      (∀ h ∈ (runOps s ops).2,
        s.last_handle < h ∧ h ≤ (runOps s ops).1.last_handle) ∧
      (runOps s ops).2.Pairwise (· < ·) := by
  induction ops with
  | nil =>
    intro s
    exact ⟨le_refl _, fun h hh => absurd hh (List.not_mem_nil h), List.Pairwise.nil⟩
  | cons op ops ih =>
    intro s
    obtain ⟨hmono1, hret1⟩ := stepOp_last s op
    obtain ⟨hmono2, hmem2, hpw2⟩ := ih (stepOp s op).1
    rw [runOps]
    refine ⟨le_trans hmono1 hmono2, ?_, ?_⟩
    · intro h hh
      rw [List.mem_append] at hh
      cases hh with
      | inl hin =>
        cases hr : (stepOp s op).2 with
        | none => rw [hr] at hin; cases hin
        | some h0 =>
          rw [hr] at hin
          cases hin with
          | head =>
            obtain ⟨hh0, hl0⟩ := hret1 h hr
            refine ⟨by omega, ?_⟩
            show h ≤ (runOps (stepOp s op).1 ops).1.last_handle
            rw [hl0] at hmono2
            exact hmono2
          | tail _ hmem => cases hmem
      | inr hin =>
        obtain ⟨hgt, hle⟩ := hmem2 h hin
        exact ⟨lt_of_le_of_lt hmono1 hgt, hle⟩
    · cases hr : (stepOp s op).2 with
      | none => simpa using hpw2
      | some h0 =>
        simp only [Option.toList_some, List.singleton_append]
        refine List.Pairwise.cons ?_ hpw2
        intro h2 hh2
        obtain ⟨hh0, hl0⟩ := hret1 h0 hr
        obtain ⟨hgt, _⟩ := hmem2 h2 hh2
        omega

/-- C6: over any trace of table operations in one invocation (starting
from the fresh table of `HostContext::new`), every handle returned by an
insert is strictly positive, handles are strictly increasing in order of
allocation (hence never reused even after the resource is removed); and
when the handle counter sits at the maximum `u32` value, inserts fail with
`HandlesExhausted` and change nothing, instead of wrapping. -/
theorem claim_C6_handles_monotone_never_reused
    (req : HostRequest) (body : List Nat) (ops : List TableOp) :
    (∀ h ∈ (runOps (HostContext.new req body) ops).2, 0 < h) ∧
    (runOps (HostContext.new req body) ops).2.Pairwise (· < ·) ∧
    (∀ (s : HostContextInner) (n v : String), s.last_handle = u32Max →
      insert_cookie n v s = (.error .handlesExhausted, s)) ∧
    (∀ (s : HostContextInner) (st : Nat), s.last_handle = u32Max →
      insert_response st s = (.error .handlesExhausted, s)
        ∨ insert_response st s = (.error .invalidArgument, s)) := by
  obtain ⟨_, hmem, hpw⟩ := runOps_invariant ops (HostContext.new req body)
  refine ⟨?_, hpw, ?_, ?_⟩
  · intro h hh
    have := (hmem h hh).1
    omega
  · intro s n v hmax
    rw [insert_cookie, next_handle_value, if_neg (by omega)]
  · intro s st hmax
    rw [insert_response]
    by_cases hv : validStatus st
    · rw [if_pos hv, next_handle_value, if_neg (by omega)]
      exact Or.inl rfl
    · rw [if_neg hv]
      exact Or.inr rfl

/-- Witness for C6: a two-allocation trace returns handles 1 then 2, and
an exhausted counter refuses to allocate. -/
theorem claim_C6_witness :
    (runOps (HostContext.new ⟨.get, ""⟩ [])
        [.insertCook ("a") ("b"), .insertResp 200]).2 = [1, 2] ∧
    ((⟨(⟨.get, ""⟩, []), [], u32Max⟩ : HostContextInner).last_handle = u32Max ∧
      insert_cookie ("a") ("b") ⟨(⟨.get, ""⟩, []), [], u32Max⟩
        = (.error .handlesExhausted, ⟨(⟨.get, ""⟩, []), [], u32Max⟩)) :=
  ⟨by decide,
    rfl,
    (claim_C6_handles_monotone_never_reused ⟨.get, ""⟩ [] []).2.2.1
      ⟨(⟨.get, ""⟩, []), [], u32Max⟩ ("a") ("b") rfl⟩

/- ===================================================================
   Part 3: the invocation dispatcher (crates/runtime/src/server.rs)
   =================================================================== -/

/-- Embeds `FUNCTION_TIMEOUT_SECS` from crates/runtime/src/server.rs. -/
def FUNCTION_TIMEOUT_SECS : Nat := 300

/-- The execution faults of one invocation as produced by
`StateInner::instantiate` and `Endpoint::invoke_function`: start-function
trap, missing export, ill-typed export, guest trap during the call,
missing `Response` handle at completion, and the timeout outcome of the
racing deadline. -/
inductive Fault where
  | startTrap
  | exportMissing (function : String)
  | badSignature (function : String)
  | trapped (function : String) (msg : String)
  | noResponse
  | timedOut (function : String)
deriving DecidableEq, Repr

/-- The error messages attached by `Endpoint::invoke_function` (and
`StateInner::instantiate`) to each fault, exactly as formatted in
crates/runtime/src/server.rs. -/
def faultMessage : Fault → String
  | .startTrap => "the module start function trapped"
  | .exportMissing f => "function \x27" ++ f ++ "\x27 was not found."
  | .badSignature f => "function \x27" ++ f ++ "\x27 has an incorrect signature."
  | .trapped f m => "function call to \x27" ++ f ++ "\x27 trapped: " ++ m
  | .noResponse => "function did not return a HTTP response"
  | .timedOut f =>
      "function invocation for \x27" ++ f ++ "\x27 timed out after "
        ++ toString FUNCTION_TIMEOUT_SECS ++ " seconds."

/-- Embeds `tide::Error` as constructed by `Endpoint::call`: a status code
and the message string it was built from. -/
structure TideError where
  status : Nat
  message : String
deriving DecidableEq, Repr

/-- The `InternalServerError` status code used by `Endpoint::call`. -/
def internalServerError : Nat := 500

/-- Embeds `impl tide::Endpoint for Endpoint::call`: a successful
invocation result passes through; every fault is logged
(`log::error!`, the second component) and mapped to a `tide::Error` with
status `InternalServerError` whose message is the fault text. -/
def endpointCall (res : Except Fault (TideResponse × List Nat)) :
    Except TideError (TideResponse × List Nat) × Option String :=
  match res with
  | .ok r => (.ok r, Option.none)
  | .error f =>
      (.error ⟨internalServerError, faultMessage f⟩, some (faultMessage f))

/-- The bytes the client receives: a status and a body. -/
structure ClientView where
  status : Nat
  body : List Nat
deriving DecidableEq, Repr

/-- Modelled from the spec: the HTTP transport (the external tide server
and async-h1, excluded collaborators) serializes a successful response as
its status and body, and an endpoint error as a bare response carrying the
generic status of the error — the error message is not serialized into
the reply ("the client never receives raw diagnostic detail, only a
generic status and message"). -/
def transportResponse : Except TideError (TideResponse × List Nat) → ClientView
  | .ok (r, b) => ⟨r.status, b⟩
  | .error e => ⟨e.status, []⟩

/-- C1: every faulting invocation — start trap, missing export, wrong
signature, guest trap, missing `Response` handle, or timeout — is mapped
to the uniform internal-error status; the reply the transport sends for it
is identical for every fault (so it carries no information about the fault
detail), and the detail string itself goes to the log only. -/
theorem claim_C1_fault_detail_logged_not_echoed (f : Fault) :
    (endpointCall (.error f)).1
        = .error ⟨internalServerError, faultMessage f⟩ ∧
    transportResponse (endpointCall (.error f)).1
        = ⟨internalServerError, []⟩ ∧
    (∀ g : Fault, transportResponse (endpointCall (.error f)).1
        = transportResponse (endpointCall (.error g)).1) ∧
    (endpointCall (.error f)).2 = some (faultMessage f) :=
  ⟨rfl, rfl, fun _ => rfl, rfl⟩

/-- The events the scheduler can deliver to the `select!` race of
`Endpoint::invoke_function`: completion of the spawned invocation task
(with its result), or the firing of the deadline timer. -/
inductive RaceEvent where
  | invocationDone (res : Except Fault (TideResponse × List Nat))
  | timeoutFired

/-- Models the `select!` of `Endpoint::invoke_function` (the `futures`
select combinator, external): the first event to be delivered decides the
result of the invocation; everything after it is discarded.  When the
timer fires first, the interrupt is sent and the outcome is the timeout
fault; `none` means neither future has resolved yet. -/
def invoke_function_outcome (function : String) :
    List RaceEvent → Option (Except Fault (TideResponse × List Nat))
  | [] => Option.none
  | .invocationDone res :: _ => some res
  | .timeoutFired :: _ => some (.error (.timedOut function))

/-- C9: when the deadline fires before the invocation completes, the
outcome is fixed as the timeout fault no matter what the abandoned task
does afterwards — a later completion (any `invocationDone` event after
the timeout) never alters it — and that outcome is mapped to the generic
internal-error reply, with the timeout message going to the log. -/
theorem claim_C9_timeout_outcome_is_fixed (function : String)
    (rest : List RaceEvent) :
    invoke_function_outcome function (.timeoutFired :: rest)
        = some (.error (.timedOut function)) ∧
    (∀ r, invoke_function_outcome function (.timeoutFired :: rest)
        = invoke_function_outcome function
            (.timeoutFired :: .invocationDone r :: rest)) ∧
    transportResponse (endpointCall (.error (.timedOut function))).1
        = ⟨internalServerError, []⟩ ∧
    (endpointCall (.error (.timedOut function))).2
        = some ("function invocation for \x27" ++ function
            ++ "\x27 timed out after " ++ toString FUNCTION_TIMEOUT_SECS
            ++ " seconds.") :=
  ⟨rfl, fun _ => rfl, rfl, rfl⟩

/-- Modelled from the spec: the route pattern language of the external
router (tide/route-recognizer).  A path is split into slash-separated
segments; this splitter mirrors `String.splitOn` over the character
list. -/
def splitSegs : List Char → List (List Char)
  | [] => [[]]
  | c :: rest =>
    if c = '/' then [] :: splitSegs rest
    else
      match splitSegs rest with
      | [] => [[c]]
      | s :: ss => (c :: s) :: ss

/-- Modelled from the spec: a pattern segment beginning with a colon is a
named parameter matching any request segment; any other segment matches
literally. -/
def segMatches (pat seg : List Char) : Bool :=
  (match pat with
   | ':' :: _ => true
   | _ => false) || pat == seg

/-- Modelled from the spec: whole-path matching of the external router —
equal segment counts and segmentwise matches. -/
def pathMatches (pattern path : String) : Bool :=
  (splitSegs pattern.toList).length == (splitSegs path.toList).length &&
    (List.zip (splitSegs pattern.toList) (splitSegs path.toList)).all
      (fun pr => segMatches pr.1 pr.2)

/-- One registration in the routing table: a path pattern, an optional
method restriction (`none` registers for every method, as `route.all`
does), and the name of the function to invoke. -/
structure Route where
  path : String
  method : Option Method
  function : String
deriving DecidableEq, Repr

/-- Embeds the route-registration loop of `Server::new`
(crates/runtime/src/server.rs): a function with an empty method set is
registered for all methods, otherwise once per listed method. -/
def buildRoutesFor (f : Function) : List Route :=
  match f.trigger with
  | .http pat methods =>
    if methods.isEmpty then [⟨pat, Option.none, f.name⟩]
    else methods.map (fun m => ⟨pat, some m, f.name⟩)

/-- The routing table built by `Server::new` over all declared
functions. -/
def buildRoutes : List Function → List Route
  | [] => []
  | f :: rest => buildRoutesFor f ++ buildRoutes rest

/-- Whether one registration matches an inbound method and path. -/
def routeMatches (r : Route) (m : Method) (p : String) : Bool :=
  pathMatches r.path p &&
    (match r.method with
     | Option.none => true
     | some m2 => m2 == m)

/-- Modelled from the spec: request dispatch over the routing table —
the first structurally matching registration wins, no match means the
standard not-found outcome (`none`). -/
def routeRequest (fs : List Function) (m : Method) (p : String) :
    Option String :=
  ((buildRoutes fs).find? (fun r => routeMatches r m p)).map Route.function

/-- The specification predicate for C7: the request path matches the
descriptor path pattern and the method is in the descriptor method set,
an empty method set matching any method. -/
def matchesFunction (f : Function) (m : Method) (p : String) : Bool :=
  match f.trigger with
  | .http pat methods =>
    pathMatches pat p && (methods.isEmpty || methods.contains m)

/-- The `hello` function of concrete scenario A of the specification. -/
def helloFunction : Function :=
  ⟨"hello", .http ("/hello/:name") [.get], [], [.http]⟩

theorem find_map_function {rs : List Route} {nm : String}
    (hall : ∀ r ∈ rs, r.function = nm) (q : Route → Bool) :
    (rs.find? q).map Route.function = some nm ↔ ∃ r ∈ rs, q r = true := by
  induction rs with
  | nil => simp
  | cons r rest ih =>
    by_cases hq : q r = true
    · rw [List.find?_cons_of_pos _ hq]
      constructor
      · intro _
        exact ⟨r, List.mem_cons_self r rest, hq⟩
      · intro _
        show some r.function = some nm
        rw [hall r (List.mem_cons_self r rest)]
    · rw [List.find?_cons_of_neg _ hq]
      rw [ih (fun r2 hr2 => hall r2 (List.mem_cons_of_mem r hr2))]
      constructor
      · rintro ⟨r2, hr2, hq2⟩
        exact ⟨r2, List.mem_cons_of_mem r hr2, hq2⟩
      · rintro ⟨r2, hr2, hq2⟩
        cases List.mem_cons.mp hr2 with
        | inl he =>
          subst he
          exact absurd hq2 hq
        | inr hmem => exact ⟨r2, hmem, hq2⟩

/-- Dispatching over a single-function table reduces to the match
condition of the descriptor. -/
theorem routeRequest_single (nm pat : String) (methods : List Method)
    (ins : List FunctionInput) (outs : List FunctionOutput)
    (m : Method) (p : String) :
    routeRequest [⟨nm, .http pat methods, ins, outs⟩] m p
      = if pathMatches pat p && (methods.isEmpty || methods.contains m)
        then some nm else Option.none := by
  have hbr : buildRoutes [⟨nm, .http pat methods, ins, outs⟩]
      = buildRoutesFor ⟨nm, .http pat methods, ins, outs⟩ := by
    rw [buildRoutes, buildRoutes, List.append_nil]
  rw [routeRequest, hbr]
  show ((buildRoutesFor ⟨nm, .http pat methods, ins, outs⟩).find?
      (fun r => routeMatches r m p)).map Route.function = _
  have hbf : buildRoutesFor ⟨nm, .http pat methods, ins, outs⟩
      = if methods.isEmpty then [⟨pat, Option.none, nm⟩]
        else methods.map (fun m2 => ⟨pat, some m2, nm⟩) := rfl
  rw [hbf]
  by_cases he : methods.isEmpty = true
  · rw [if_pos he, he, Bool.true_or]
    by_cases hp : pathMatches pat p = true
    · have hm : routeMatches ⟨pat, Option.none, nm⟩ m p = true := by
        simp [routeMatches, hp]
      rw [List.find?_cons_of_pos (p := fun r => routeMatches r m p) [] hm,
        if_pos (by rw [hp, Bool.true_and])]
      rfl
    · have hm : ¬ (fun r => routeMatches r m p)
          (⟨pat, Option.none, nm⟩ : Route) = true := by
        simp [routeMatches, hp]
      rw [List.find?_cons_of_neg (p := fun r => routeMatches r m p) [] hm]
      rw [if_neg (by
        simp only [Bool.and_eq_true]
        intro hcond
        exact hp hcond.1)]
      rfl
  · have hef : methods.isEmpty = false := Bool.eq_false_iff.mpr he
    rw [if_neg he, hef, Bool.false_or]
    by_cases hp : pathMatches pat p = true
    · by_cases hc : methods.contains m = true
      · rw [if_pos (by rw [hp, hc]; rfl)]
        have hall : ∀ r ∈ methods.map (fun m2 => (⟨pat, some m2, nm⟩ : Route)),
            r.function = nm := by
          intro r hr
          obtain ⟨m2, _, rfl⟩ := List.mem_map.mp hr
          rfl
        rw [find_map_function hall]
        refine ⟨⟨pat, some m, nm⟩, List.mem_map.mpr ⟨m, ?_, rfl⟩, ?_⟩
        · exact List.elem_iff.mp hc
        · simp [routeMatches, hp]
      · have hcf : methods.contains m = false := Bool.eq_false_iff.mpr hc
        rw [if_neg (by rw [hp, hcf]; simp)]
        have hnone : (methods.map (fun m2 => (⟨pat, some m2, nm⟩ : Route))).find?
            (fun r => routeMatches r m p) = Option.none := by
          rw [List.find?_eq_none]
          intro r hr
          obtain ⟨m2, hm2, rfl⟩ := List.mem_map.mp hr
          simp only [routeMatches, Bool.and_eq_true]
          rintro ⟨_, hbeq⟩
          have hm2m : m2 = m := by simpa using hbeq
          subst hm2m
          exact hc (List.elem_iff.mpr hm2)
        rw [hnone]
        rfl
    · rw [if_neg (by
        simp only [Bool.and_eq_true]
        intro hcond
        exact hp hcond.1)]
      have hnone : (methods.map (fun m2 => (⟨pat, some m2, nm⟩ : Route))).find?
          (fun r => routeMatches r m p) = Option.none := by
        rw [List.find?_eq_none]
        intro r hr
        obtain ⟨m2, _, rfl⟩ := List.mem_map.mp hr
        simp [routeMatches, hp]
      rw [hnone]
      rfl

/-- C7: a single-function routing table dispatches a request to the
function exactly when the request path matches the descriptor path
pattern and the method is in the descriptor method set (an empty set
matching any method); in particular, for scenario A of the specification,
`hello` with pattern `/hello/:name` and methods `[GET]` receives a GET to
`/hello/Ada` and does not receive a POST to the same path. -/
theorem claim_C7_routing_matches_method_and_path :
    (∀ (f : Function) (m : Method) (p : String),
      routeRequest [f] m p = some f.name ↔ matchesFunction f m p = true) ∧
    routeRequest [helloFunction] .get ("/hello/Ada") = some ("hello") ∧
    routeRequest [helloFunction] .post ("/hello/Ada") = Option.none := by
  refine ⟨?_, ?_, ?_⟩
  · intro f m p
    obtain ⟨nm, trig, ins, outs⟩ := f
    obtain ⟨pat, methods⟩ := trig
    rw [routeRequest_single]
    show _ ↔ (pathMatches pat p && (methods.isEmpty || methods.contains m))
        = true
    by_cases hcond : (pathMatches pat p
        && (methods.isEmpty || methods.contains m)) = true
    · rw [if_pos hcond, hcond]
      simp
    · rw [if_neg hcond]
      constructor
      · intro hx
        exact absurd hx (by simp)
      · intro hx
        exact absurd hx hcond
  · rw [show (helloFunction : Function)
        = ⟨"hello", .http ("/hello/:name") [.get], [], [.http]⟩ from rfl,
      routeRequest_single]
    rw [if_pos (by decide)]
  · rw [show (helloFunction : Function)
        = ⟨"hello", .http ("/hello/:name") [.get], [], [.http]⟩ from rfl,
      routeRequest_single]
    rw [if_neg (by decide)]
